import Mathlib

/-!
# A shallow embedding of the TileNet collision library

This file models the Rust sources of the TileNet repository:

* `src/defs/line.rs` — the supercover line-traversal iterator
  (translated here as `TN.Line.supercover` and `TN.LineTiles`);
* `src/tiles/tilenet.rs` — the dense grid, its writes, `resize`,
  the dirty-span proxy (`TN.TileNet`, `TN.TileNetProxy`);
* `src/tiles/mod.rs` — `TileSet` (collision queries) and `TileView`
  (rectangular views);
* the `Collable::solve` resolution driver, which is referenced by the
  example program but absent from the sources, modelled from the spec.

Machine floats (`f32`) are modelled by `TN.F`: finite values are exact
rationals (rounding is not modelled), plus the IEEE special values
+inf, -inf and NaN, with the IEEE rules for arithmetic on the special
values.  Signed zero is not distinguished; in the modelled code every
zero divisor arises as `x - x` of finite operands, which is `+0.0` in
IEEE round-to-nearest, so the single zero of `ℚ` behaves as `+0.0`.
`f32::sqrt` is modelled by `Rat.sqrt` on finite values, exact on the
rational squares reached by the theorems below.  Machine integers
(`i32`, `usize`) are modelled as `Int`/`Nat` with the saturating
behaviour of Rust float-to-integer casts made explicit.

Rust iterators are modelled by a `next` function from an iterator state
to an optional (item, successor state) pair; draining an iterator runs
`next` until it returns `none`.  Each drain is written with an explicit
fuel that is proved sufficient (`drain_eq_toList` lemmas show any
larger fuel gives the same list), so every traversal is computable and
provably complete.
-/

namespace TN

/-- Model of an IEEE-754 `f32` value: an exact rational, or a special
value.  Rounding of finite results is not modelled. -/
inductive F where
  | nan : F
  | inf : F
  | ninf : F
  | fin : ℚ → F
deriving DecidableEq, Repr

namespace F

/-- Truncation of a rational toward zero, as in `f32::trunc`. -/
def truncQ (q : ℚ) : ℤ := if 0 ≤ q then ⌊q⌋ else ⌈q⌉

/-- Largest `i32` value. -/
def I32MAX : ℤ := 2147483647
/-- Smallest `i32` value. -/
def I32MIN : ℤ := -2147483648
/-- Largest `usize` value (64-bit target). -/
def USIZEMAX : ℤ := 18446744073709551615

/-- Rust `as i32` cast on an `f32`: truncate toward zero, saturate at
the `i32` bounds, NaN maps to 0. -/
def toI32 : F → ℤ
  | nan => 0
  | inf => I32MAX
  | ninf => I32MIN
  | fin q => max I32MIN (min I32MAX (truncQ q))

/-- Rust `as usize` cast on an `f32` (64-bit target): truncate toward
zero, saturate at the `usize` bounds, NaN maps to 0. -/
def toUsize : F → ℕ
  | nan => 0
  | inf => USIZEMAX.toNat
  | ninf => 0
  | fin q => (max 0 (min USIZEMAX (truncQ q))).toNat

/-- IEEE addition on the model. -/
def add : F → F → F
  | nan, _ => nan
  | _, nan => nan
  | inf, ninf => nan
  | ninf, inf => nan
  | inf, _ => inf
  | _, inf => inf
  | ninf, _ => ninf
  | _, ninf => ninf
  | fin a, fin b => fin (a + b)

/-- IEEE subtraction on the model. -/
def sub : F → F → F
  | nan, _ => nan
  | _, nan => nan
  | inf, inf => nan
  | ninf, ninf => nan
  | inf, _ => inf
  | ninf, _ => ninf
  | _, inf => ninf
  | _, ninf => inf
  | fin a, fin b => fin (a - b)

/-- IEEE multiplication on the model (`inf * 0 = NaN`). -/
def mul : F → F → F
  | nan, _ => nan
  | _, nan => nan
  | inf, inf => inf
  | inf, ninf => ninf
  | ninf, inf => ninf
  | ninf, ninf => inf
  | inf, fin b => if b = 0 then nan else if 0 < b then inf else ninf
  | ninf, fin b => if b = 0 then nan else if 0 < b then ninf else inf
  | fin a, inf => if a = 0 then nan else if 0 < a then inf else ninf
  | fin a, ninf => if a = 0 then nan else if 0 < a then ninf else inf
  | fin a, fin b => fin (a * b)

/-- IEEE division on the model; division of a nonzero finite value by
(positive) zero gives a signed infinity, `0 / 0 = NaN`. -/
def div : F → F → F
  | nan, _ => nan
  | _, nan => nan
  | inf, inf => nan
  | inf, ninf => nan
  | ninf, inf => nan
  | ninf, ninf => nan
  | inf, fin b => if b < 0 then ninf else inf
  | ninf, fin b => if b < 0 then inf else ninf
  | fin _, inf => fin 0
  | fin _, ninf => fin 0
  | fin a, fin b =>
      if b = 0 then (if a = 0 then nan else if 0 < a then inf else ninf)
      else fin (a / b)

/-- Rust `f32::sqrt`; on finite values modelled by `Rat.sqrt`, which is
exact on rational squares (the only finite arguments reached by the
theorems below are rational squares). -/
def sqrt : F → F
  | nan => nan
  | inf => inf
  | ninf => nan
  | fin a => if a < 0 then nan else fin (Rat.sqrt a)

/-- Rust `f32::floor`. -/
def floor : F → F
  | nan => nan
  | inf => inf
  | ninf => ninf
  | fin a => fin (⌊a⌋ : ℤ)

/-- Rust `f32::fract`, i.e. `self - self.trunc()`; NaN on infinities. -/
def fract : F → F
  | nan => nan
  | inf => nan
  | ninf => nan
  | fin a => fin (a - truncQ a)

/-- Rust `f32::abs`. -/
def abs : F → F
  | nan => nan
  | inf => inf
  | ninf => inf
  | fin a => fin |a|

/-- The IEEE strict-less-than comparison (false whenever NaN is
involved). -/
def lt : F → F → Bool
  | nan, _ => false
  | _, nan => false
  | inf, _ => false
  | _, inf => true
  | ninf, ninf => false
  | ninf, fin _ => true
  | fin _, ninf => false
  | fin a, fin b => decide (a < b)

/-- Rust `f32::min`: if one argument is NaN the other is returned. -/
def fmin (x y : F) : F :=
  if x = nan then y else if y = nan then x else if lt x y then x else y

end F

/-- Rust `Point(pub f32, pub f32)` from `src/defs/point.rs`; the Rust tuple
fields `.0`/`.1` are named `x`/`y` here. -/
structure Pt where
  x : F
  y : F
deriving DecidableEq, Repr

/-- Componentwise subtraction of points (`impl Sub for Point`). -/
def Pt.sub (a b : Pt) : Pt := ⟨F.sub a.x b.x, F.sub a.y b.y⟩

/-- Rust `Line(pub Point, pub Point)` from `src/defs/line.rs`; `p0` is the
start point, `p1` the stop point. -/
structure Line where
  p0 : Pt
  p1 : Pt
deriving DecidableEq, Repr

/-- Rust `Line::from_origin`. -/
def Line.from_origin (p : Pt) : Line := ⟨⟨F.fin 0, F.fin 0⟩, p⟩

/-- The state of the supercover iterator, `struct LineTiles` from
`src/defs/line.rs`. -/
structure LineTiles where
  it : ℕ
  len : ℕ
  dx : F
  dy : F
  sx : ℤ
  sy : ℤ
  ex : F
  ey : F
  ix : ℤ
  iy : ℤ
  dest_x : ℤ
  dest_y : ℤ
deriving DecidableEq, Repr

/-- Rust `Line::supercover` from `src/defs/line.rs`, translated
expression-for-expression (Rust `a / b / c` parses as `(a / b) / c`). -/
def Line.supercover (l : Line) : LineTiles :=
  let start := l.p0
  let stop := l.p1
  let nw := Pt.sub stop start
  let vx := nw.x
  let vy := nw.y
  let slope_x := F.add (F.fin 1) (F.div (F.div (F.mul vy vy) vx) vx)
  let slope_y := F.add (F.fin 1) (F.div (F.div (F.mul vx vx) vy) vy)
  let dx := F.sqrt slope_x
  let dy := F.sqrt slope_y
  let ix := F.toI32 (F.floor start.x)
  let iy := F.toI32 (F.floor start.y)
  let sx : ℤ := if F.lt vx (F.fin 0) then -1 else 1
  let ex := if F.lt vx (F.fin 0) then F.mul (F.fract start.x) dx
            else F.mul (F.sub (F.fin 1) (F.fract start.x)) dx
  let sy : ℤ := if F.lt vy (F.fin 0) then -1 else 1
  let ey := if F.lt vy (F.fin 0) then F.mul (F.fract start.y) dy
            else F.mul (F.sub (F.fin 1) (F.fract start.y)) dy
  let len : ℕ := F.toUsize (F.abs (F.floor vx)) + F.toUsize (F.abs (F.floor vy))
  { it := 0, len := len, dx := dx, dy := dy, sx := sx, sy := sy,
    ex := ex, ey := ey, ix := ix, iy := iy,
    dest_x := F.toI32 (F.floor stop.x), dest_y := F.toI32 (F.floor stop.y) }

namespace LineTiles

/-- Rust `LineTiles::minimize_distance_from_zero`. -/
def minimize_distance_from_zero (s : LineTiles) : LineTiles :=
  let minimal := F.fmin s.ex s.ey
  { s with ex := F.sub s.ex minimal, ey := F.sub s.ey minimal }

/-- Rust `LineTiles::step_to_next_tile`. -/
def step_to_next_tile (s : LineTiles) : LineTiles :=
  if F.lt s.ex s.ey then { s with ex := F.add s.ex s.dx, ix := s.ix + s.sx }
  else { s with ey := F.add s.ey s.dy, iy := s.iy + s.sy }

/-- Translation of `impl Iterator for LineTiles`: `next` returns the produced cell
together with the successor state (in Rust the receiver is mutated; the
body increments `it` before stepping, and neither helper reads `it`). -/
def next (s : LineTiles) : Option ((ℤ × ℤ) × LineTiles) :=
  if s.it < s.len then
    some ((s.ix, s.iy),
      minimize_distance_from_zero (step_to_next_tile { s with it := s.it + 1 }))
  else if s.it = s.len then
    some ((s.dest_x, s.dest_y), { s with it := s.it + 1 })
  else none

/-- Run `next` at most `fuel` times, collecting the produced cells. -/
def drain : ℕ → LineTiles → List (ℤ × ℤ)
  | 0, _ => []
  | fuel + 1, s =>
    match next s with
    | none => []
    | some (p, s') => p :: drain fuel s'

/-- The complete traversal: all cells the iterator produces before
returning `None`.  The fuel `len + 2 - it` is exact
(`drain_eq_toList` below shows any larger fuel yields the same list). -/
def toList (s : LineTiles) : List (ℤ × ℤ) :=
  drain (s.len + 2 - s.it) s

end LineTiles

/-- The inclusive list of integers from `a` to `b`, stepping toward
`b`; used to state which cells an axis-aligned traversal must visit. -/
def intRange (a b : ℤ) : List ℤ :=
  if a ≤ b then (List.range ((b - a).toNat + 1)).map (fun k : ℕ => a + (k : ℤ))
  else (List.range ((a - b).toNat + 1)).map (fun k : ℕ => a - (k : ℤ))

/-- Translation of `struct TileNet<T>` from `src/tiles/tilenet.rs`: a row-major dense
grid. -/
structure TileNet (T : Type) where
  map : List T
  cols : ℕ
deriving DecidableEq, Repr

namespace TileNet

/-- Rust `TileNet::new(x, y)`; Rust fills with `T::default()`, passed
explicitly here. -/
def new (default : T) (x y : ℕ) : TileNet T :=
  { map := List.replicate (x * y) default, cols := x }

/-- Rust `TileNet::row_count`. -/
def row_count (g : TileNet T) : ℕ := g.map.length / g.cols

/-- Rust `TileNet::col_count`. -/
def col_count (g : TileNet T) : ℕ := g.cols

/-- Rust `TileNet::get_size`, `(cols, rows)`. -/
def get_size (g : TileNet T) : ℕ × ℕ := (g.cols, g.row_count)

/-- Rust `TileNet::get`; the Rust pair components `p.0`/`p.1` are `p.1`/`p.2`
here. -/
def get (g : TileNet T) (p : ℕ × ℕ) : Option T :=
  if g.cols ≤ p.1 then none else g.map[p.1 + p.2 * g.cols]?

/-- Rust `TileNet::set`: `get_mut` returns `None` (and the write is skipped)
when the column is out of range or the flat index is past the end;
`List.set` is likewise the identity out of bounds. -/
def set (g : TileNet T) (value : T) (p : ℕ × ℕ) : TileNet T :=
  if g.cols ≤ p.1 then g
  else { g with map := g.map.set (p.1 + p.2 * g.cols) value }

/-- Rust `TileNet::set_row` (`for i in 0..col_count`). -/
def set_row (g : TileNet T) (value : T) (row : ℕ) : TileNet T :=
  (List.range g.cols).foldl (fun g i => g.set value (i, row)) g

/-- Rust `TileNet::set_col` (`for i in 0..row_count`). -/
def set_col (g : TileNet T) (value : T) (col : ℕ) : TileNet T :=
  (List.range g.row_count).foldl (fun g i => g.set value (col, i)) g

/-- Rust `TileNet::set_box`: the two interior loops, the two edge loops and
the final corner write, in source order (Rust `a..b` is empty when
`a ≥ b`, as is `List.range (b - a)` under truncated subtraction). -/
def set_box (g : TileNet T) (value : T) (start stop : ℕ × ℕ) : TileNet T :=
  let g1 := (List.range (stop.2 - start.2)).foldl
    (fun g i => (List.range (stop.1 - start.1)).foldl
      (fun g j => g.set value (start.1 + j, start.2 + i)) g) g
  let g2 := (List.range (stop.1 - start.1)).foldl
    (fun g j => g.set value (start.1 + j, stop.2)) g1
  let g3 := (List.range (stop.2 - start.2)).foldl
    (fun g i => g.set value (stop.1, start.2 + i)) g2
  g3.set value (stop.1, stop.2)

/-- Rust `TileNet::resize`: note the source takes the *second* component of
`m` as the new column count. -/
def resize (g : TileNet T) (default : T) (m : ℕ × ℕ) : TileNet T :=
  let new_map := List.replicate (m.1 * m.2) default
  let new_cols := m.2
  let new_rows := new_map.length / new_cols
  let final := g.map.enum.foldl (fun nm x =>
      let px := x.1 % g.cols
      let py := x.1 / g.cols
      if px < new_cols ∧ py < new_rows then nm.set (px + py * new_cols) x.2
      else nm) new_map
  { map := final, cols := new_cols }

end TileNet

/-- Translation of `struct TileNetProxy` from `src/tiles/tilenet.rs`: the dirty-span
tracking wrapper. -/
structure TileNetProxy (T : Type) where
  tilenet : TileNet T
  min_x : ℕ
  max_x : ℕ
  min_y : ℕ
  max_y : ℕ
deriving DecidableEq, Repr

/-- Rust `TileNet::prepare`. -/
def TileNet.prepare (g : TileNet T) : TileNetProxy T :=
  { tilenet := g, min_x := g.get_size.1, max_x := 0,
    min_y := g.get_size.2, max_y := 0 }

namespace TileNetProxy

/-- Rust `TileNetProxy::get_span`, `(min_x, min_y, max_x, max_y)`. -/
def get_span (p : TileNetProxy T) : ℕ × ℕ × ℕ × ℕ :=
  (p.min_x, p.min_y, p.max_x, p.max_y)

/-- Rust `TileNetProxy::set`. -/
def set (p : TileNetProxy T) (value : T) (q : ℕ × ℕ) : TileNetProxy T :=
  let t := p.tilenet.set value q
  { tilenet := t,
    min_x := if q.1 < p.min_x then q.1 else p.min_x,
    min_y := if q.2 < p.min_y then q.2 else p.min_y,
    max_x := if q.1 > p.max_x ∧ q.1 < t.get_size.1 then q.1 else p.max_x,
    max_y := if q.2 > p.max_y ∧ q.2 < t.get_size.2 then q.2 else p.max_y }

/-- Rust `TileNetProxy::set_row`: `min_x`/`max_x` are assigned `0` and the
full column count unconditionally. -/
def set_row (p : TileNetProxy T) (value : T) (row : ℕ) : TileNetProxy T :=
  let t := p.tilenet.set_row value row
  { tilenet := t,
    min_x := 0,
    max_x := t.get_size.1,
    min_y := if row < p.min_y then row else p.min_y,
    max_y := if row > p.max_y ∧ row < t.get_size.2 then row else p.max_y }

/-- Rust `TileNetProxy::set_col`. -/
def set_col (p : TileNetProxy T) (value : T) (col : ℕ) : TileNetProxy T :=
  let t := p.tilenet.set_col value col
  { tilenet := t,
    min_y := 0,
    max_y := t.get_size.2,
    min_x := if col < p.min_x then col else p.min_x,
    max_x := if col > p.max_x ∧ col < t.get_size.1 then col else p.max_x }

/-- Rust `TileNetProxy::set_box`: the x maximum takes `stop.0` without any
range check; only the y maximum is checked against the extent. -/
def set_box (p : TileNetProxy T) (value : T) (start stop : ℕ × ℕ) :
    TileNetProxy T :=
  let t := p.tilenet.set_box value start stop
  { tilenet := t,
    min_x := if start.1 < p.min_x then start.1 else p.min_x,
    min_y := if start.2 < p.min_y then start.2 else p.min_y,
    max_x := if stop.1 > p.max_x then stop.1 else p.max_x,
    max_y := if stop.2 > p.max_y ∧ stop.2 < t.get_size.2 then stop.2
             else p.max_y }

end TileNetProxy

/-- One mutating call on a `TileNetProxy`. -/
inductive WriteOp (T : Type) where
  | set : T → ℕ × ℕ → WriteOp T
  | set_row : T → ℕ → WriteOp T
  | set_col : T → ℕ → WriteOp T
  | set_box : T → ℕ × ℕ → ℕ × ℕ → WriteOp T

/-- Apply one proxy write. -/
def TileNetProxy.applyOp (p : TileNetProxy T) : WriteOp T → TileNetProxy T
  | .set v q => p.set v q
  | .set_row v r => p.set_row v r
  | .set_col v c => p.set_col v c
  | .set_box v a b => p.set_box v a b

/-- Apply a sequence of proxy writes. -/
def TileNetProxy.runOps (p : TileNetProxy T) (ops : List (WriteOp T)) :
    TileNetProxy T :=
  ops.foldl TileNetProxy.applyOp p

/-- The declarative per-operation span update: how one requested write
changes the tracked `(min_x, min_y, max_x, max_y)` span, given the
grid extent `size = (cols, rows)`.  This mirrors the bookkeeping of
`TileNetProxy` without the grid, making explicit that the span depends
only on the extent and the requested coordinates. -/
def spanUpdate (size : ℕ × ℕ) : ℕ × ℕ × ℕ × ℕ → WriteOp T → ℕ × ℕ × ℕ × ℕ
  | (mnx, mny, mxx, mxy), .set _ q =>
      (if q.1 < mnx then q.1 else mnx,
       if q.2 < mny then q.2 else mny,
       if q.1 > mxx ∧ q.1 < size.1 then q.1 else mxx,
       if q.2 > mxy ∧ q.2 < size.2 then q.2 else mxy)
  | (_, mny, _, mxy), .set_row _ r =>
      (0, if r < mny then r else mny,
       size.1, if r > mxy ∧ r < size.2 then r else mxy)
  | (mnx, _, mxx, _), .set_col _ c =>
      (if c < mnx then c else mnx, 0,
       if c > mxx ∧ c < size.1 then c else mxx, size.2)
  | (mnx, mny, mxx, mxy), .set_box _ a b =>
      (if a.1 < mnx then a.1 else mnx,
       if a.2 < mny then a.2 else mny,
       if b.1 > mxx then b.1 else mxx,
       if b.2 > mxy ∧ b.2 < size.2 then b.2 else mxy)

/-- Translation of `struct TileSet` from `src/tiles/mod.rs`: the collision query
iterator; the coordinate stream is modelled as the list of coordinates
it has yet to produce. -/
structure TileSet (T : Type) where
  tilenet : TileNet T
  points : List (ℤ × ℤ)

/-- Rust `TileNet::collide_set`. -/
def TileNet.collide_set (g : TileNet T) (list : List (ℤ × ℤ)) : TileSet T :=
  { tilenet := g, points := list }

namespace TileSet

/-- Translation of `impl Iterator for TileSet`: a coordinate with a negative component
yields `None` (ending the iteration) without consulting the grid;
otherwise the result of `TileNet::get` is returned as-is, so an
out-of-range coordinate also ends the iteration. -/
def next (s : TileSet T) : Option (T × TileSet T) :=
  match s.points with
  | [] => none
  | point :: rest =>
    if 0 ≤ point.1 ∧ 0 ≤ point.2 then
      match s.tilenet.get (point.1.toNat, point.2.toNat) with
      | some t => some (t, { tilenet := s.tilenet, points := rest })
      | none => none
    else none

/-- Run `next` at most `fuel` times. -/
def drain : ℕ → TileSet T → List T
  | 0, _ => []
  | fuel + 1, s =>
    match next s with
    | none => []
    | some (t, s') => t :: drain fuel s'

/-- All payloads the query iterator produces before returning `None`;
each `next` consumes one pending coordinate, so `points.length + 1`
fuel is sufficient. -/
def toList (s : TileSet T) : List T :=
  drain (s.points.length + 1) s

end TileSet

/-- Translation of `struct TileView` from `src/tiles/mod.rs`. -/
structure TileView (T : Type) where
  tilenet : TileNet T
  rectangle : ℕ × ℕ × ℕ × ℕ
  current : ℕ × ℕ
deriving DecidableEq, Repr

/-- Rust `TileView::new`: the source clamps `rectangle.1` (the right edge)
by `get_size().1` (the *row* count) and `rectangle.3` (the bottom
edge) by `get_size().0` (the *column* count). -/
def TileView.new (g : TileNet T) (rect : ℕ × ℕ × ℕ × ℕ) : TileView T :=
  let r1 := min rect.2.1 g.get_size.2
  let r3 := min rect.2.2.2 g.get_size.1
  { tilenet := g, rectangle := (rect.1, r1, rect.2.2.1, r3),
    current := (rect.1, rect.2.2.1) }

/-- Rust `TileNet::view_all`. -/
def TileNet.view_all (g : TileNet T) : TileView T :=
  TileView.new g (0, g.cols, 0, g.map.length / g.cols)

/-- Rust `TileNet::view_center` (`checked_sub(..).unwrap_or(0)` is truncated
subtraction on `ℕ`). -/
def TileNet.view_center (g : TileNet T) (position span : ℕ × ℕ) : TileView T :=
  let left := position.1 - span.1
  let top := position.2 - span.2
  let right := position.1 + span.1
  let bottom := position.2 + span.2
  TileView.new g (left, right, top, bottom)

/-- Rust `TileNet::view_box`. -/
def TileNet.view_box (g : TileNet T) (rect : ℕ × ℕ × ℕ × ℕ) : TileView T :=
  TileView.new g rect

namespace TileView

/-- Translation of `impl Iterator for TileView`: ends when the scan row reaches the
bottom edge; otherwise reads the current cell (an out-of-range read
ends the iteration), then advances in row-major order. -/
def next (v : TileView T) : Option ((T × ℕ × ℕ) × TileView T) :=
  if v.rectangle.2.2.2 ≤ v.current.2 then none
  else
    let tile := (v.tilenet.get v.current).map
      (fun x => (x, v.current.1, v.current.2))
    let c0 := v.current.1 + 1
    let v' := if v.rectangle.2.1 ≤ c0 then
        { v with current := (v.rectangle.1, v.current.2 + 1) }
      else { v with current := (c0, v.current.2) }
    tile.map (fun t => (t, v'))

/-- Run `next` at most `fuel` times. -/
def drain : ℕ → TileView T → List (T × ℕ × ℕ)
  | 0, _ => []
  | fuel + 1, v =>
    match next v with
    | none => []
    | some (t, v') => t :: drain fuel v'

/-- Fuel that strictly decreases along `next` (proved below). -/
def measure (v : TileView T) : ℕ :=
  (v.rectangle.2.2.2 - v.current.2) * (v.rectangle.2.1 + 1) +
    (v.rectangle.2.1 - v.current.1) + 1

/-- All `(payload, x, y)` triples the view produces before returning
`None`. -/
def toList (v : TileView T) : List (T × ℕ × ℕ) :=
  drain v.measure v

end TileView

/-- Modelled from the spec: the `Collable` capability set of section
4.5 — `presolve`, `resolve` (returning whether the movement was
accepted together with the updated client state) and `postsolve`
(taking the collided-at-least-once and resolved flags).  The driver
`Collable::solve` is referenced by the repository's example program
but its definition is not among the sources. -/
structure Collable (S : Type) where
  presolve : S → S
  resolve : S → Bool × S
  postsolve : S → Bool → Bool → S

/-- Modelled from the spec: the driver's fixed retry ceiling ("the
reference value is 30"). -/
def solve_retries : ℕ := 30

/-- Modelled from the spec: the bounded retry loop.  Each iteration
calls `resolve` once; on "resolved" it exits immediately, otherwise it
continues until the attempt budget is exhausted.  The returned list
records the outcome of each `resolve` call, in order. -/
def solveLoop (c : Collable S) : ℕ → S → S × List Bool
  | 0, s => (s, [])
  | n + 1, s =>
    let r := c.resolve s
    if r.1 then (r.2, [true])
    else
      let rest := solveLoop c n r.2
      (rest.1, false :: rest.2)

/-- Modelled from the spec: `Collable::solve`, the resolution driver —
`presolve`, then the retry loop with ceiling `solve_retries`, then one
`postsolve` call with the collided-at-least-once and resolved flags.
Returns the post-solve state together with the outcome trace of the
`resolve` calls made. -/
def solve (c : Collable S) (s : S) : S × List Bool :=
  let s1 := c.presolve s
  let r := solveLoop c solve_retries s1
  let collided := r.2.contains false
  let resolved := r.2.contains true
  (c.postsolve r.1 collided resolved, r.2)

/-! ## Kinematics of the supercover iterator -/

namespace LineTiles

theorem minimize_it (s : LineTiles) :
    (minimize_distance_from_zero s).it = s.it := rfl

theorem minimize_len (s : LineTiles) :
    (minimize_distance_from_zero s).len = s.len := rfl

theorem minimize_dest_x (s : LineTiles) :
    (minimize_distance_from_zero s).dest_x = s.dest_x := rfl

theorem minimize_dest_y (s : LineTiles) :
    (minimize_distance_from_zero s).dest_y = s.dest_y := rfl

theorem step_it (s : LineTiles) : (step_to_next_tile s).it = s.it := by
  unfold step_to_next_tile; split <;> rfl

theorem step_len (s : LineTiles) : (step_to_next_tile s).len = s.len := by
  unfold step_to_next_tile; split <;> rfl

theorem step_dest_x (s : LineTiles) :
    (step_to_next_tile s).dest_x = s.dest_x := by
  unfold step_to_next_tile; split <;> rfl

theorem step_dest_y (s : LineTiles) :
    (step_to_next_tile s).dest_y = s.dest_y := by
  unfold step_to_next_tile; split <;> rfl

/-- What `next` preserves whenever it produces an element. -/
theorem next_fields {s s' : LineTiles} {p : ℤ × ℤ}
    (h : next s = some (p, s')) :
    s'.it = s.it + 1 ∧ s'.len = s.len ∧ s'.dest_x = s.dest_x ∧
      s'.dest_y = s.dest_y ∧ s.it ≤ s.len := by
  unfold next at h
  split at h
  · rename_i hlt
    injection h with h
    injection h with h1 h2
    subst h2
    refine ⟨?_, ?_, ?_, ?_, Nat.le_of_lt hlt⟩
    · rw [minimize_it, step_it]
    · rw [minimize_len, step_len]
    · rw [minimize_dest_x, step_dest_x]
    · rw [minimize_dest_y, step_dest_y]
  · split at h
    · rename_i heq
      injection h with h
      injection h with h1 h2
      subst h2
      exact ⟨rfl, rfl, rfl, rfl, Nat.le_of_eq heq⟩
    · exact absurd h (by simp)

theorem toList_next_none {s : LineTiles} (h : next s = none) :
    s.toList = [] := by
  unfold toList
  cases hf : s.len + 2 - s.it with
  | zero => rfl
  | succ n => rw [drain, h]

theorem toList_next_some {s s' : LineTiles} {p : ℤ × ℤ}
    (h : next s = some (p, s')) : s.toList = p :: s'.toList := by
  obtain ⟨hit, hlen, _, _, hle⟩ := next_fields h
  unfold toList
  have hf : s.len + 2 - s.it = (s'.len + 2 - s'.it) + 1 := by omega
  rw [hf, drain, h]

/-- Any fuel at least `len + 2 - it` drains the iterator completely:
the traversal list is well-defined independently of the fuel. -/
theorem drain_eq_toList :
    ∀ (fuel : ℕ) (s : LineTiles), s.len + 2 - s.it ≤ fuel →
      drain fuel s = s.toList := by
  intro fuel
  induction fuel with
  | zero =>
    intro s h
    unfold toList
    have h0 : s.len + 2 - s.it = 0 := by omega
    rw [h0]
  | succ n ih =>
    intro s h
    cases hn : next s with
    | none => rw [drain, hn, toList_next_none hn]
    | some ps =>
      obtain ⟨p, s'⟩ := ps
      obtain ⟨hit, hlen, _, _, hle⟩ := next_fields hn
      rw [drain, hn]
      show p :: drain n s' = s.toList
      rw [toList_next_some hn, ih s' (by omega)]

/-- Structure of a complete traversal: some interior cells, whose
number is exactly `len - it`, followed by the destination cell. -/
theorem toList_concat :
    ∀ (n : ℕ) (s : LineTiles), s.len - s.it = n → s.it ≤ s.len →
      ∃ l : List (ℤ × ℤ),
        s.toList = l ++ [(s.dest_x, s.dest_y)] ∧ l.length = n := by
  intro n
  induction n with
  | zero =>
    intro s h0 hle
    have heq : s.it = s.len := by omega
    have hn : next s = some ((s.dest_x, s.dest_y), { s with it := s.it + 1 }) := by
      unfold next
      rw [if_neg (by omega), if_pos heq]
    have hn' : next ({ s with it := s.it + 1 } : LineTiles) = none := by
      unfold next
      rw [if_neg (by simp; omega), if_neg (by simp; omega)]
    refine ⟨[], ?_, rfl⟩
    rw [toList_next_some hn, toList_next_none hn']
    rfl
  | succ n ih =>
    intro s h0 hle
    have hlt : s.it < s.len := by omega
    have hn : next s = some ((s.ix, s.iy),
        minimize_distance_from_zero
          (step_to_next_tile { s with it := s.it + 1 })) := by
      unfold next
      rw [if_pos hlt]
    obtain ⟨hit, hlen, hdx, hdy, _⟩ := next_fields hn
    obtain ⟨l, hl, hllen⟩ :=
      ih (minimize_distance_from_zero
          (step_to_next_tile { s with it := s.it + 1 }))
        (by omega) (by omega)
    refine ⟨(s.ix, s.iy) :: l, ?_, by simp [hllen]⟩
    rw [toList_next_some hn, hl, hdx, hdy]
    rfl

end LineTiles

theorem F.truncQ_intCast (n : ℤ) : F.truncQ (n : ℚ) = n := by
  unfold F.truncQ
  split <;> simp

theorem F.lt_fin_inf (e : ℚ) : F.lt (F.fin e) F.inf = true := rfl

theorem F.lt_inf_fin (e : ℚ) : F.lt F.inf (F.fin e) = false := rfl

theorem F.add_fin_fin (a b : ℚ) : F.add (F.fin a) (F.fin b) = F.fin (a + b) := rfl

theorem F.sub_fin_fin (a b : ℚ) : F.sub (F.fin a) (F.fin b) = F.fin (a - b) := rfl

theorem F.sub_inf_fin (a : ℚ) : F.sub F.inf (F.fin a) = F.inf := rfl

theorem F.fmin_fin_inf (e : ℚ) : F.fmin (F.fin e) F.inf = F.fin e := by
  unfold F.fmin
  rw [if_neg (by simp), if_neg (by simp), if_pos (F.lt_fin_inf e)]

theorem F.fmin_inf_fin (e : ℚ) : F.fmin F.inf (F.fin e) = F.fin e := by
  unfold F.fmin
  rw [if_neg (by simp), if_neg (by simp), if_neg (by simp [F.lt_inf_fin])]

/-- The value `1 - fract` is positive for every finite value: the fractional part
`c - trunc c` always lies in `(-1, 1)`. -/
theorem F.one_sub_fract_pos (c : ℚ) : 0 < 1 - (c - F.truncQ c) := by
  unfold F.truncQ
  split
  · have := Int.sub_one_lt_floor c
    push_cast at this ⊢
    linarith
  · have : c ≤ (⌈c⌉ : ℚ) := Int.le_ceil c
    linarith

namespace LineTiles

/-- Running the iterator from a state whose `ey` accumulator is `+inf`
while `ex` and `dx` are finite: every interior step moves along x, so
the traversal lists `len - it` cells advancing `ix` by `sx`, then the
destination. -/
theorem toList_run_x :
    ∀ (n : ℕ) (s : LineTiles), s.len - s.it = n → s.it ≤ s.len →
      (∃ e, s.ex = F.fin e) → (∃ d, s.dx = F.fin d) → s.ey = F.inf →
      s.toList = (List.range n).map (fun k : ℕ => (s.ix + s.sx * (k : ℤ), s.iy))
        ++ [(s.dest_x, s.dest_y)] := by
  intro n
  induction n with
  | zero =>
    intro s h0 hle he hd hey
    obtain ⟨li, hl, hlen⟩ := toList_concat 0 s h0 hle
    rw [hl, List.length_eq_zero.mp hlen]
    rfl
  | succ n ih =>
    intro s h0 hle ⟨e, he⟩ ⟨d, hd⟩ hey
    have hlt : s.it < s.len := by omega
    have hn : next s = some ((s.ix, s.iy),
        minimize_distance_from_zero
          (step_to_next_tile { s with it := s.it + 1 })) := by
      unfold next
      rw [if_pos hlt]
    have hstep : step_to_next_tile { s with it := s.it + 1 }
        = { s with it := s.it + 1, ex := F.fin (e + d), ix := s.ix + s.sx } := by
      unfold step_to_next_tile
      rw [if_pos (by simp [he, hey, F.lt_fin_inf])]
      simp [he, hd, F.add_fin_fin]
    have hmin : minimize_distance_from_zero
        ({ s with it := s.it + 1, ex := F.fin (e + d), ix := s.ix + s.sx }
          : LineTiles)
        = { s with it := s.it + 1, ex := F.fin (e + d - (e + d)), ey := F.inf, ix := s.ix + s.sx } := by
      unfold minimize_distance_from_zero
      simp [hey, F.fmin_fin_inf, F.sub_fin_fin, F.sub_inf_fin]
    rw [hstep, hmin] at hn
    rw [toList_next_some hn]
    rw [ih ({ s with it := s.it + 1, ex := F.fin (e + d - (e + d)), ey := F.inf, ix := s.ix + s.sx })
        (by show s.len - (s.it + 1) = n; omega)
        (by show s.it + 1 ≤ s.len; omega) ⟨e + d - (e + d), rfl⟩ ⟨d, hd⟩ rfl]
    show (s.ix, s.iy) :: ((List.range n).map
        (fun k : ℕ => (s.ix + s.sx + s.sx * (k : ℤ), s.iy)) ++ [(s.dest_x, s.dest_y)])
      = (List.range (n + 1)).map (fun k : ℕ => (s.ix + s.sx * (k : ℤ), s.iy))
        ++ [(s.dest_x, s.dest_y)]
    rw [List.range_succ_eq_map]
    simp only [List.map_cons, List.map_map, List.cons_append]
    congr 1
    · norm_num
    have hfun : ((fun k : ℕ => (s.ix + s.sx * (k : ℤ), s.iy)) ∘ Nat.succ)
        = (fun k : ℕ => (s.ix + s.sx + s.sx * (k : ℤ), s.iy)) := by
      funext k
      simp only [Function.comp, Prod.mk.injEq]
      constructor
      · push_cast
        ring
      · trivial
    rw [hfun]

/-- Mirror image of `toList_run_x`: with `ex = +inf` and finite
`ey`/`dy`, every interior step moves along y. -/
theorem toList_run_y :
    ∀ (n : ℕ) (s : LineTiles), s.len - s.it = n → s.it ≤ s.len →
      (∃ e, s.ey = F.fin e) → (∃ d, s.dy = F.fin d) → s.ex = F.inf →
      s.toList = (List.range n).map (fun k : ℕ => (s.ix, s.iy + s.sy * (k : ℤ)))
        ++ [(s.dest_x, s.dest_y)] := by
  intro n
  induction n with
  | zero =>
    intro s h0 hle he hd hex
    obtain ⟨li, hl, hlen⟩ := toList_concat 0 s h0 hle
    rw [hl, List.length_eq_zero.mp hlen]
    rfl
  | succ n ih =>
    intro s h0 hle ⟨e, he⟩ ⟨d, hd⟩ hex
    have hlt : s.it < s.len := by omega
    have hn : next s = some ((s.ix, s.iy),
        minimize_distance_from_zero
          (step_to_next_tile { s with it := s.it + 1 })) := by
      unfold next
      rw [if_pos hlt]
    have hstep : step_to_next_tile { s with it := s.it + 1 }
        = { s with it := s.it + 1, ey := F.fin (e + d), iy := s.iy + s.sy } := by
      unfold step_to_next_tile
      rw [if_neg (by simp [he, hex, F.lt_inf_fin])]
      simp [he, hd, F.add_fin_fin]
    have hmin : minimize_distance_from_zero
        ({ s with it := s.it + 1, ey := F.fin (e + d), iy := s.iy + s.sy }
          : LineTiles)
        = { s with it := s.it + 1, ey := F.fin (e + d - (e + d)), ex := F.inf, iy := s.iy + s.sy } := by
      unfold minimize_distance_from_zero
      simp [hex, F.fmin_inf_fin, F.sub_fin_fin, F.sub_inf_fin]
    rw [hstep, hmin] at hn
    rw [toList_next_some hn]
    rw [ih ({ s with it := s.it + 1, ey := F.fin (e + d - (e + d)), ex := F.inf, iy := s.iy + s.sy })
        (by show s.len - (s.it + 1) = n; omega)
        (by show s.it + 1 ≤ s.len; omega) ⟨e + d - (e + d), rfl⟩ ⟨d, hd⟩ rfl]
    show (s.ix, s.iy) :: ((List.range n).map
        (fun k : ℕ => (s.ix, s.iy + s.sy + s.sy * (k : ℤ))) ++ [(s.dest_x, s.dest_y)])
      = (List.range (n + 1)).map (fun k : ℕ => (s.ix, s.iy + s.sy * (k : ℤ)))
        ++ [(s.dest_x, s.dest_y)]
    rw [List.range_succ_eq_map]
    simp only [List.map_cons, List.map_map, List.cons_append]
    congr 1
    · norm_num
    have hfun : ((fun k : ℕ => (s.ix, s.iy + s.sy * (k : ℤ))) ∘ Nat.succ)
        = (fun k : ℕ => (s.ix, s.iy + s.sy + s.sy * (k : ℤ))) := by
      funext k
      simp only [Function.comp, Prod.mk.injEq]
      constructor
      · trivial
      · push_cast
        ring
    rw [hfun]

end LineTiles

theorem F.toUsize_abs_floor (v : ℚ) (h : (⌊v⌋).natAbs ≤ F.USIZEMAX.toNat) :
    F.toUsize (F.abs (F.floor (F.fin v))) = (⌊v⌋).natAbs := by
  show (max 0 (min F.USIZEMAX (F.truncQ |((⌊v⌋ : ℤ) : ℚ)|))).toNat
      = (⌊v⌋).natAbs
  rw [← Int.cast_abs, F.truncQ_intCast, Int.abs_eq_natAbs]
  revert h
  unfold F.USIZEMAX
  omega

theorem F.toI32_floor_fin (v : ℚ) (hlo : F.I32MIN ≤ ⌊v⌋)
    (hhi : ⌊v⌋ ≤ F.I32MAX) : F.toI32 (F.floor (F.fin v)) = ⌊v⌋ := by
  show max F.I32MIN (min F.I32MAX (F.truncQ ((⌊v⌋ : ℤ) : ℚ))) = ⌊v⌋
  rw [F.truncQ_intCast]
  revert hlo hhi
  unfold F.I32MIN F.I32MAX
  omega

theorem F.toUsize_abs_floor_zero : F.toUsize (F.abs (F.floor (F.fin 0))) = 0 := by
  show (max 0 (min F.USIZEMAX (F.truncQ |((⌊(0 : ℚ)⌋ : ℤ) : ℚ)|))).toNat = 0
  norm_num [F.truncQ, F.USIZEMAX]

theorem Rat.sqrt_one : Rat.sqrt 1 = 1 := by
  rw [show (1 : ℚ) = 1 * 1 from (one_mul 1).symm, Rat.sqrt_eq]
  norm_num

/-- Helper: the complete supercover state of a horizontal line with
nonzero displacement.  The y components of the division chain pass
through `inf`, never producing a NaN, and the x increment is exactly
`1`; the y accumulator `ey` is `+inf`, so the walk never steps in y. -/
theorem supercover_horiz (a0 c b0 : ℚ) (hne : b0 - a0 ≠ 0)
    (hbound : (⌊b0 - a0⌋).natAbs ≤ F.USIZEMAX.toNat) :
    (Line.mk ⟨F.fin a0, F.fin c⟩ ⟨F.fin b0, F.fin c⟩).supercover
      = { it := 0,
          len := (⌊b0 - a0⌋).natAbs,
          dx := F.fin 1,
          dy := F.inf,
          sx := if b0 - a0 < 0 then -1 else 1,
          sy := 1,
          ex := if b0 - a0 < 0 then F.fin ((a0 - F.truncQ a0) * 1)
                else F.fin ((1 - (a0 - F.truncQ a0)) * 1),
          ey := F.inf,
          ix := F.toI32 (F.floor (F.fin a0)),
          iy := F.toI32 (F.floor (F.fin c)),
          dest_x := F.toI32 (F.floor (F.fin b0)),
          dest_y := F.toI32 (F.floor (F.fin c)) } := by
  have ha2 : 0 < (b0 - a0) * (b0 - a0) := mul_self_pos.mpr hne
  have hp := F.one_sub_fract_pos c
  have hmulinf : F.mul (F.fin (1 - (c - F.truncQ c))) F.inf = F.inf := by
    show (if 1 - (c - F.truncQ c) = 0 then F.nan
          else if 0 < 1 - (c - F.truncQ c) then F.inf else F.ninf) = F.inf
    rw [if_neg hp.ne', if_pos hp]
  have hdivv : F.div (F.fin ((b0 - a0) * (b0 - a0))) (F.fin 0) = F.inf := by
    show (if (0 : ℚ) = 0 then
            if (b0 - a0) * (b0 - a0) = 0 then F.nan
            else if 0 < (b0 - a0) * (b0 - a0) then F.inf else F.ninf
          else F.fin ((b0 - a0) * (b0 - a0) / 0)) = F.inf
    rw [if_pos rfl, if_neg ha2.ne', if_pos ha2]
  have hdivinf : F.div F.inf (F.fin 0) = F.inf := by
    show (if (0 : ℚ) < 0 then F.ninf else F.inf) = F.inf
    rw [if_neg (by norm_num)]
  have hdiv0 : F.div (F.fin 0) (F.fin (b0 - a0)) = F.fin 0 := by
    show (if b0 - a0 = 0 then
            if (0 : ℚ) = 0 then F.nan
            else if 0 < (0 : ℚ) then F.inf else F.ninf
          else F.fin (0 / (b0 - a0))) = F.fin 0
    rw [if_neg hne, zero_div]
  have hsqrt1 : F.sqrt (F.fin 1) = F.fin 1 := by
    show (if (1 : ℚ) < 0 then F.nan else F.fin (Rat.sqrt 1)) = F.fin 1
    rw [if_neg (by norm_num), Rat.sqrt_one]
  simp only [Line.supercover, Pt.sub, F.sub_fin_fin, sub_self, F.lt]
  simp only [show F.mul (F.fin 0) (F.fin 0) = F.fin (0 * 0) from rfl, mul_zero,
    show F.mul (F.fin (b0 - a0)) (F.fin (b0 - a0))
        = F.fin ((b0 - a0) * (b0 - a0)) from rfl,
    hdiv0, hdivv, hdivinf, F.add_fin_fin, add_zero,
    show F.add (F.fin 1) F.inf = F.inf from rfl,
    hsqrt1, show F.sqrt F.inf = F.inf from rfl,
    show F.fract (F.fin c) = F.fin (c - F.truncQ c) from rfl,
    show F.fract (F.fin a0) = F.fin (a0 - F.truncQ a0) from rfl,
    F.sub_fin_fin, hmulinf, decide_eq_true_eq,
    show F.mul (F.fin (a0 - F.truncQ a0)) (F.fin 1)
        = F.fin ((a0 - F.truncQ a0) * 1) from rfl,
    show F.mul (F.fin (1 - (a0 - F.truncQ a0))) (F.fin 1)
        = F.fin ((1 - (a0 - F.truncQ a0)) * 1) from rfl,
    F.toUsize_abs_floor _ hbound, F.toUsize_abs_floor_zero,
    lt_self_iff_false, if_false, zero_add]

/-- Helper: the complete supercover state of a vertical line with
nonzero displacement. -/
theorem supercover_vert (a1 c b1 : ℚ) (hne : b1 - a1 ≠ 0)
    (hbound : (⌊b1 - a1⌋).natAbs ≤ F.USIZEMAX.toNat) :
    (Line.mk ⟨F.fin c, F.fin a1⟩ ⟨F.fin c, F.fin b1⟩).supercover
      = { it := 0,
          len := (⌊b1 - a1⌋).natAbs,
          dx := F.inf,
          dy := F.fin 1,
          sx := 1,
          sy := if b1 - a1 < 0 then -1 else 1,
          ex := F.inf,
          ey := if b1 - a1 < 0 then F.fin ((a1 - F.truncQ a1) * 1)
                else F.fin ((1 - (a1 - F.truncQ a1)) * 1),
          ix := F.toI32 (F.floor (F.fin c)),
          iy := F.toI32 (F.floor (F.fin a1)),
          dest_x := F.toI32 (F.floor (F.fin c)),
          dest_y := F.toI32 (F.floor (F.fin b1)) } := by
  have ha2 : 0 < (b1 - a1) * (b1 - a1) := mul_self_pos.mpr hne
  have hp := F.one_sub_fract_pos c
  have hmulinf : F.mul (F.fin (1 - (c - F.truncQ c))) F.inf = F.inf := by
    show (if 1 - (c - F.truncQ c) = 0 then F.nan
          else if 0 < 1 - (c - F.truncQ c) then F.inf else F.ninf) = F.inf
    rw [if_neg hp.ne', if_pos hp]
  have hdivv : F.div (F.fin ((b1 - a1) * (b1 - a1))) (F.fin 0) = F.inf := by
    show (if (0 : ℚ) = 0 then
            if (b1 - a1) * (b1 - a1) = 0 then F.nan
            else if 0 < (b1 - a1) * (b1 - a1) then F.inf else F.ninf
          else F.fin ((b1 - a1) * (b1 - a1) / 0)) = F.inf
    rw [if_pos rfl, if_neg ha2.ne', if_pos ha2]
  have hdivinf : F.div F.inf (F.fin 0) = F.inf := by
    show (if (0 : ℚ) < 0 then F.ninf else F.inf) = F.inf
    rw [if_neg (by norm_num)]
  have hdiv0 : F.div (F.fin 0) (F.fin (b1 - a1)) = F.fin 0 := by
    show (if b1 - a1 = 0 then
            if (0 : ℚ) = 0 then F.nan
            else if 0 < (0 : ℚ) then F.inf else F.ninf
          else F.fin (0 / (b1 - a1))) = F.fin 0
    rw [if_neg hne, zero_div]
  have hsqrt1 : F.sqrt (F.fin 1) = F.fin 1 := by
    show (if (1 : ℚ) < 0 then F.nan else F.fin (Rat.sqrt 1)) = F.fin 1
    rw [if_neg (by norm_num), Rat.sqrt_one]
  simp only [Line.supercover, Pt.sub, F.sub_fin_fin, sub_self, F.lt]
  simp only [show F.mul (F.fin 0) (F.fin 0) = F.fin (0 * 0) from rfl, mul_zero,
    show F.mul (F.fin (b1 - a1)) (F.fin (b1 - a1))
        = F.fin ((b1 - a1) * (b1 - a1)) from rfl,
    hdiv0, hdivv, hdivinf, F.add_fin_fin, add_zero,
    show F.add (F.fin 1) F.inf = F.inf from rfl,
    hsqrt1, show F.sqrt F.inf = F.inf from rfl,
    show F.fract (F.fin c) = F.fin (c - F.truncQ c) from rfl,
    show F.fract (F.fin a1) = F.fin (a1 - F.truncQ a1) from rfl,
    F.sub_fin_fin, hmulinf, decide_eq_true_eq,
    show F.mul (F.fin (a1 - F.truncQ a1)) (F.fin 1)
        = F.fin ((a1 - F.truncQ a1) * 1) from rfl,
    show F.mul (F.fin (1 - (a1 - F.truncQ a1))) (F.fin 1)
        = F.fin ((1 - (a1 - F.truncQ a1)) * 1) from rfl,
    F.toUsize_abs_floor _ hbound, F.toUsize_abs_floor_zero,
    lt_self_iff_false, if_false, zero_add]

/-- The complete traversal of a horizontal line with nonzero
displacement: `|floor(vx)|` unit steps in x from the floored start,
then the floored destination. -/
theorem supercover_horiz_toList (a0 c b0 : ℚ) (hne : b0 - a0 ≠ 0)
    (hbound : (⌊b0 - a0⌋).natAbs ≤ F.USIZEMAX.toNat) :
    (Line.mk ⟨F.fin a0, F.fin c⟩ ⟨F.fin b0, F.fin c⟩).supercover.toList
      = (List.range (⌊b0 - a0⌋).natAbs).map
          (fun k : ℕ => (F.toI32 (F.floor (F.fin a0))
              + (if b0 - a0 < 0 then (-1 : ℤ) else 1) * (k : ℤ),
            F.toI32 (F.floor (F.fin c))))
        ++ [(F.toI32 (F.floor (F.fin b0)), F.toI32 (F.floor (F.fin c)))] := by
  rw [supercover_horiz a0 c b0 hne hbound]
  exact LineTiles.toList_run_x _ _ rfl (Nat.zero_le _)
    (by by_cases hs : b0 - a0 < 0
        · exact ⟨_, if_pos hs⟩
        · exact ⟨_, if_neg hs⟩) ⟨1, rfl⟩ rfl

/-- The complete traversal of a vertical line with nonzero
displacement. -/
theorem supercover_vert_toList (a1 c b1 : ℚ) (hne : b1 - a1 ≠ 0)
    (hbound : (⌊b1 - a1⌋).natAbs ≤ F.USIZEMAX.toNat) :
    (Line.mk ⟨F.fin c, F.fin a1⟩ ⟨F.fin c, F.fin b1⟩).supercover.toList
      = (List.range (⌊b1 - a1⌋).natAbs).map
          (fun k : ℕ => (F.toI32 (F.floor (F.fin c)),
            F.toI32 (F.floor (F.fin a1))
              + (if b1 - a1 < 0 then (-1 : ℤ) else 1) * (k : ℤ)))
        ++ [(F.toI32 (F.floor (F.fin c)), F.toI32 (F.floor (F.fin b1)))] := by
  rw [supercover_vert a1 c b1 hne hbound]
  exact LineTiles.toList_run_y _ _ rfl (Nat.zero_le _)
    (by by_cases hs : b1 - a1 < 0
        · exact ⟨_, if_pos hs⟩
        · exact ⟨_, if_neg hs⟩) ⟨1, rfl⟩ rfl

/-- The stepped enumeration from `a` with `(b - a).natAbs` unit steps
toward `b`, followed by `b`, is exactly the inclusive range from `a`
to `b`. -/
theorem steps_eq_intRange (a b : ℤ) :
    (List.range (b - a).natAbs).map
        (fun k : ℕ => a + (if b - a < 0 then (-1 : ℤ) else 1) * (k : ℤ))
      ++ [b] = intRange a b := by
  unfold intRange
  by_cases h : b - a < 0
  · rw [if_neg (show ¬ a ≤ b by omega)]
    simp only [if_pos h]
    have hm : (a - b).toNat + 1 = (b - a).natAbs + 1 := by omega
    rw [hm, List.range_succ, List.map_append]
    congr 1
    · refine List.map_congr_left ?_
      intro k _
      ring
    · have hb : a - ((b - a).natAbs : ℤ) = b := by omega
      rw [List.map_cons, List.map_nil, hb]
  · rw [if_pos (show a ≤ b by omega)]
    simp only [if_neg h]
    have hm : (b - a).toNat + 1 = (b - a).natAbs + 1 := by omega
    rw [hm, List.range_succ, List.map_append]
    congr 1
    · refine List.map_congr_left ?_
      intro k _
      ring
    · have hb : a + ((b - a).natAbs : ℤ) = b := by omega
      rw [List.map_cons, List.map_nil, hb]

/-- Helper: the length of a finite line's traversal is the sum of the
absolute floored displacement components, plus one. -/
theorem supercover_length (a0 a1 b0 b1 : ℚ)
    (hbx : (⌊b0 - a0⌋).natAbs ≤ F.USIZEMAX.toNat)
    (hby : (⌊b1 - a1⌋).natAbs ≤ F.USIZEMAX.toNat) :
    (Line.mk ⟨F.fin a0, F.fin a1⟩ ⟨F.fin b0, F.fin b1⟩).supercover.toList.length
      = (⌊b0 - a0⌋).natAbs + (⌊b1 - a1⌋).natAbs + 1 := by
  have hit : (Line.mk ⟨F.fin a0, F.fin a1⟩ ⟨F.fin b0, F.fin b1⟩).supercover.it
      = 0 := rfl
  have hlen : (Line.mk ⟨F.fin a0, F.fin a1⟩ ⟨F.fin b0, F.fin b1⟩).supercover.len
      = (⌊b0 - a0⌋).natAbs + (⌊b1 - a1⌋).natAbs := by
    show F.toUsize (F.abs (F.floor (F.fin (b0 - a0))))
        + F.toUsize (F.abs (F.floor (F.fin (b1 - a1)))) = _
    rw [F.toUsize_abs_floor _ hbx, F.toUsize_abs_floor _ hby]
  obtain ⟨li, hl, hllen⟩ :=
    LineTiles.toList_concat _ _ rfl (by rw [hit]; exact Nat.zero_le _)
  rw [hl, List.length_append, hllen, hit, hlen]
  simp

/-- Helper: a zero-displacement line traverses exactly its single
floored starting cell. -/
theorem supercover_point (a0 a1 : ℚ) :
    (Line.mk ⟨F.fin a0, F.fin a1⟩ ⟨F.fin a0, F.fin a1⟩).supercover.toList
      = [(F.toI32 (F.floor (F.fin a0)), F.toI32 (F.floor (F.fin a1)))] := by
  have hit : (Line.mk ⟨F.fin a0, F.fin a1⟩ ⟨F.fin a0, F.fin a1⟩).supercover.it
      = 0 := rfl
  have hlen : (Line.mk ⟨F.fin a0, F.fin a1⟩ ⟨F.fin a0, F.fin a1⟩).supercover.len
      = 0 := by
    show F.toUsize (F.abs (F.floor (F.fin (a0 - a0))))
        + F.toUsize (F.abs (F.floor (F.fin (a1 - a1)))) = 0
    rw [sub_self, sub_self]
    rfl
  obtain ⟨li, hl, hllen⟩ :=
    LineTiles.toList_concat 0 _ (by rw [hit, hlen]) (by omega)
  have hnil : li = [] := List.length_eq_zero.mp hllen
  subst hnil
  rw [hl]
  rfl

/-- C1: for every `Line`, the supercover traversal is finite — any fuel
at least `len + 2` drains it to the same complete list — and the last
produced element is the floored destination cell, independently of the
accumulator values reached during the walk. -/
theorem C1_traversal_last (l : Line) :
    l.supercover.toList.getLast? =
        some (F.toI32 (F.floor l.p1.x), F.toI32 (F.floor l.p1.y)) ∧
      ∀ extra : ℕ, LineTiles.drain (l.supercover.len + 2 + extra) l.supercover
        = l.supercover.toList := by
  have hit : l.supercover.it = 0 := rfl
  constructor
  · obtain ⟨li, hl, _⟩ :=
      LineTiles.toList_concat l.supercover.len l.supercover
        (by rw [hit, Nat.sub_zero]) (by rw [hit]; exact Nat.zero_le _)
    rw [hl, List.getLast?_concat]
    rfl
  · intro extra
    exact LineTiles.drain_eq_toList _ l.supercover (by omega)

/-- C2 counterexample: for the line from `(0.5, 0)` to `(1.2, 0)` the
traversal yields a single cell, but the claimed count — the Manhattan
distance between the floored endpoints, plus the final cell — is two:
the interior count used by the code is `|floor(vx)| + |floor(vy)|`
(the floored displacement), not the distance between floored
endpoints. -/
theorem C2_counterexample :
    ¬ ((Line.mk ⟨F.fin (1/2), F.fin 0⟩
          ⟨F.fin (6/5), F.fin 0⟩).supercover.toList.length
        = (⌊(6 : ℚ)/5⌋ - ⌊(1 : ℚ)/2⌋).natAbs
            + (⌊(0 : ℚ)⌋ - ⌊(0 : ℚ)⌋).natAbs + 1) := by
  have h := supercover_length (1/2) 0 (6/5) 0 (by norm_num) (by norm_num)
  rw [h]
  norm_num

/-- C2 (amended): the supercover iterator emits exactly
`|floor(stop.x - start.x)| + |floor(stop.y - start.y)|` interior cells
— the floored *displacement*, not the Manhattan distance between the
floored endpoints — followed by the unconditional final destination
cell; a line whose start equals its stop yields exactly the single
floored starting cell. -/
theorem C2_interior_count (l : Line) (a0 a1 b0 b1 : ℚ)
    (hs0 : l.p0.x = F.fin a0) (hs1 : l.p0.y = F.fin a1)
    (ht0 : l.p1.x = F.fin b0) (ht1 : l.p1.y = F.fin b1)
    (hbx : (⌊b0 - a0⌋).natAbs ≤ F.USIZEMAX.toNat)
    (hby : (⌊b1 - a1⌋).natAbs ≤ F.USIZEMAX.toNat) :
    l.supercover.toList.length
        = (⌊b0 - a0⌋).natAbs + (⌊b1 - a1⌋).natAbs + 1 ∧
      (l.p0 = l.p1 →
        l.supercover.toList
          = [(F.toI32 (F.floor l.p0.x), F.toI32 (F.floor l.p0.y))]) := by
  obtain ⟨⟨px, py⟩, ⟨qx, qy⟩⟩ := l
  simp only at hs0 hs1 ht0 ht1
  subst hs0 hs1 ht0 ht1
  refine ⟨supercover_length a0 a1 b0 b1 hbx hby, fun hpq => ?_⟩
  have h1 : F.fin a0 = F.fin b0 := congrArg Pt.x hpq
  have h2 : F.fin a1 = F.fin b1 := congrArg Pt.y hpq
  obtain rfl : a0 = b0 := F.fin.inj h1
  obtain rfl : a1 = b1 := F.fin.inj h2
  exact supercover_point a0 a1

/-- Witness for `C2_interior_count`: the line `(0.5, 0.5) → (2.5, 0)`
yields `|floor 2| + |floor (-0.5)| + 1 = 4` cells, and the
zero-length line at `(0.5, 0.5)` yields exactly `[(0, 0)]`. -/
theorem C2_interior_count_witness :
    (Line.mk ⟨F.fin (1/2), F.fin (1/2)⟩
        ⟨F.fin (5/2), F.fin 0⟩).supercover.toList.length = 4
    ∧ (Line.mk ⟨F.fin (1/2), F.fin (1/2)⟩
        ⟨F.fin (1/2), F.fin (1/2)⟩).supercover.toList = [(0, 0)] := by
  constructor
  · have h := (C2_interior_count
        (Line.mk ⟨F.fin (1/2), F.fin (1/2)⟩ ⟨F.fin (5/2), F.fin 0⟩)
        (1/2) (1/2) (5/2) 0 rfl rfl rfl rfl
        (by norm_num [F.USIZEMAX]) (by norm_num [F.USIZEMAX])).1
    rw [h]
    norm_num
  · have h := (C2_interior_count
        (Line.mk ⟨F.fin (1/2), F.fin (1/2)⟩ ⟨F.fin (1/2), F.fin (1/2)⟩)
        (1/2) (1/2) (1/2) (1/2) rfl rfl rfl rfl
        (by norm_num [F.USIZEMAX]) (by norm_num [F.USIZEMAX])).2 rfl
    rw [h]
    have h0 : F.toI32 (F.floor (F.fin ((1 : ℚ)/2))) = 0 := by
      rw [F.toI32_floor_fin _ (by norm_num [F.I32MIN]) (by norm_num [F.I32MAX])]
      norm_num
    rw [h0]

/-- C4 counterexample: the horizontal line from `(0.5, 0)` to
`(1.2, 0)` does not visit the cells between the floored start and the
floored stop inclusive — the inclusive range is `[(0,0), (1,0)]` but
the traversal is `[(1,0)]`, never visiting `(0,0)`. -/
theorem C4_counterexample :
    (Line.mk ⟨F.fin (1/2), F.fin 0⟩ ⟨F.fin (6/5), F.fin 0⟩).supercover.toList
        = [(1, 0)]
    ∧ (intRange ⌊(1 : ℚ)/2⌋ ⌊(6 : ℚ)/5⌋).map (fun i => (i, (0 : ℤ)))
        = [(0, 0), (1, 0)]
    ∧ ((0 : ℤ), (0 : ℤ)) ∉ (Line.mk ⟨F.fin (1/2), F.fin 0⟩
        ⟨F.fin (6/5), F.fin 0⟩).supercover.toList := by
  have hne : (6 : ℚ)/5 - 1/2 ≠ 0 := by norm_num
  have hbound : (⌊(6 : ℚ)/5 - 1/2⌋).natAbs ≤ F.USIZEMAX.toNat := by
    norm_num [F.USIZEMAX]
  have htl : (Line.mk ⟨F.fin (1/2), F.fin 0⟩
      ⟨F.fin (6/5), F.fin 0⟩).supercover.toList = [(1, 0)] := by
    rw [supercover_horiz_toList (1/2) 0 (6/5) hne hbound]
    have hz : (⌊(6 : ℚ)/5 - 1/2⌋).natAbs = 0 := by norm_num
    rw [hz]
    have hd : F.toI32 (F.floor (F.fin ((6 : ℚ)/5))) = 1 := by
      rw [F.toI32_floor_fin _ (by norm_num [F.I32MIN]) (by norm_num [F.I32MAX])]
      norm_num
    have hy : F.toI32 (F.floor (F.fin (0 : ℚ))) = 0 := by
      rw [F.toI32_floor_fin _ (by norm_num [F.I32MIN]) (by norm_num [F.I32MAX])]
      norm_num
    simp [hd, hy]
  refine ⟨htl, ?_, ?_⟩
  · have hf1 : (⌊(1 : ℚ)/2⌋ : ℤ) = 0 := by norm_num
    have hf2 : (⌊(6 : ℚ)/5⌋ : ℤ) = 1 := by norm_num
    rw [hf1, hf2]
    decide
  · rw [htl]
    decide

/-- C4 (amended): for an axis-aligned line with nonzero displacement
whose moving-axis start coordinate is an *integer*, the increment used
along the moving axis is exactly the finite value `1` (the ill-defined
axis yields `+inf`, which the walk never selects, not a NaN), and the
traversal visits exactly the cells between the floored start and the
floored stop, inclusive and in order.  (For a fractional moving-axis
start the visited set can differ from the inclusive range, see the
counterexample.) -/
theorem C4_axis_aligned (n : ℤ) (b c : ℚ) (hne : b ≠ (n : ℚ))
    (hnlo : F.I32MIN ≤ n) (hnhi : n ≤ F.I32MAX)
    (hblo : F.I32MIN ≤ ⌊b⌋) (hbhi : ⌊b⌋ ≤ F.I32MAX) :
    ((Line.mk ⟨F.fin (n : ℚ), F.fin c⟩ ⟨F.fin b, F.fin c⟩).supercover.dx
        = F.fin 1
      ∧ (Line.mk ⟨F.fin (n : ℚ), F.fin c⟩ ⟨F.fin b, F.fin c⟩).supercover.toList
        = (intRange n ⌊b⌋).map (fun i => (i, F.toI32 (F.floor (F.fin c)))))
    ∧ ((Line.mk ⟨F.fin c, F.fin (n : ℚ)⟩ ⟨F.fin c, F.fin b⟩).supercover.dy
        = F.fin 1
      ∧ (Line.mk ⟨F.fin c, F.fin (n : ℚ)⟩ ⟨F.fin c, F.fin b⟩).supercover.toList
        = (intRange n ⌊b⌋).map (fun i => (F.toI32 (F.floor (F.fin c)), i))) := by
  have hne' : b - (n : ℚ) ≠ 0 := sub_ne_zero.mpr hne
  have hfd : (⌊b - ((n : ℤ) : ℚ)⌋ : ℤ) = ⌊b⌋ - n := Int.floor_sub_int b n
  have hbound : (⌊b - ((n : ℤ) : ℚ)⌋).natAbs ≤ F.USIZEMAX.toNat := by
    rw [hfd]
    revert hnlo hnhi hblo hbhi
    unfold F.I32MIN F.I32MAX F.USIZEMAX
    omega
  have hfn : (⌊((n : ℤ) : ℚ)⌋ : ℤ) = n := Int.floor_intCast n
  have hix : F.toI32 (F.floor (F.fin ((n : ℤ) : ℚ))) = n := by
    rw [F.toI32_floor_fin _ (by rw [hfn]; exact hnlo) (by rw [hfn]; exact hnhi),
      hfn]
  have hdest : F.toI32 (F.floor (F.fin b)) = ⌊b⌋ := F.toI32_floor_fin b hblo hbhi
  have hsigniff : (b - ((n : ℤ) : ℚ) < 0) ↔ (⌊b⌋ - n < 0) := by
    rw [sub_neg, sub_neg, Int.floor_lt]
  have hite : (if b - ((n : ℤ) : ℚ) < 0 then (-1 : ℤ) else 1)
      = (if ⌊b⌋ - n < 0 then (-1 : ℤ) else 1) := if_congr hsigniff rfl rfl
  constructor
  · constructor
    · rw [supercover_horiz ((n : ℤ) : ℚ) c b hne' hbound]
    · rw [supercover_horiz_toList ((n : ℤ) : ℚ) c b hne' hbound]
      rw [← steps_eq_intRange n ⌊b⌋, hfd]
      simp only [List.map_append, List.map_map, List.map_cons, List.map_nil]
      congr 1
      · refine List.map_congr_left ?_
        intro k _
        simp only [Function.comp_apply]
        rw [Prod.mk.injEq]
        exact ⟨by rw [hix, hite], rfl⟩
      · rw [hdest]
  · constructor
    · rw [supercover_vert ((n : ℤ) : ℚ) c b hne' hbound]
    · rw [supercover_vert_toList ((n : ℤ) : ℚ) c b hne' hbound]
      rw [← steps_eq_intRange n ⌊b⌋, hfd]
      simp only [List.map_append, List.map_map, List.map_cons, List.map_nil]
      congr 1
      · refine List.map_congr_left ?_
        intro k _
        simp only [Function.comp_apply]
        rw [Prod.mk.injEq]
        exact ⟨rfl, by rw [hix, hite]⟩
      · rw [hdest]

/-- Witness for `C4_axis_aligned`: the spec's concrete scenario — the
line from the origin to `(10, 0)` traverses exactly the eleven cells
`(0,0) .. (10,0)`. -/
theorem C4_axis_aligned_witness :
    (Line.from_origin ⟨F.fin 10, F.fin 0⟩).supercover.toList
      = [(0, 0), (1, 0), (2, 0), (3, 0), (4, 0), (5, 0),
         (6, 0), (7, 0), (8, 0), (9, 0), (10, 0)] := by
  have h := (C4_axis_aligned 0 10 0 (by norm_num)
      (by norm_num [F.I32MIN]) (by norm_num [F.I32MAX])
      (by norm_num [F.I32MIN]) (by norm_num [F.I32MAX])).1.2
  have h0 : F.toI32 (F.floor (F.fin (0 : ℚ))) = 0 := by
    rw [F.toI32_floor_fin _ (by norm_num [F.I32MIN]) (by norm_num [F.I32MAX])]
    norm_num
  rw [show Line.from_origin ⟨F.fin 10, F.fin 0⟩
      = Line.mk ⟨F.fin ((0 : ℤ) : ℚ), F.fin 0⟩ ⟨F.fin 10, F.fin 0⟩ by
      norm_num [Line.from_origin]]
  rw [h, h0, show (⌊(10 : ℚ)⌋ : ℤ) = 10 by norm_num]
  decide

/-! ## Grid theorems -/

theorem TileNet.set_size (g : TileNet T) (v : T) (p : ℕ × ℕ) :
    (g.set v p).get_size = g.get_size := by
  unfold TileNet.set
  split
  · rfl
  · show (g.cols, (g.map.set (p.1 + p.2 * g.cols) v).length / g.cols) = _
    rw [List.length_set]
    rfl

/-- Folding any extent-preserving step preserves the extent. -/
theorem TileNet.foldl_size {α : Type} (step : TileNet T → α → TileNet T)
    (hstep : ∀ g a, (step g a).get_size = g.get_size) :
    ∀ (l : List α) (g : TileNet T), (l.foldl step g).get_size = g.get_size := by
  intro l
  induction l with
  | nil => intro g; rfl
  | cons a l ih => intro g; rw [List.foldl_cons, ih, hstep]

theorem TileNet.set_row_size (g : TileNet T) (v : T) (row : ℕ) :
    (g.set_row v row).get_size = g.get_size :=
  TileNet.foldl_size _ (fun g i => TileNet.set_size g v (i, row)) _ g

theorem TileNet.set_col_size (g : TileNet T) (v : T) (col : ℕ) :
    (g.set_col v col).get_size = g.get_size :=
  TileNet.foldl_size _ (fun g i => TileNet.set_size g v (col, i)) _ g

theorem TileNet.set_box_size (g : TileNet T) (v : T) (start stop : ℕ × ℕ) :
    (g.set_box v start stop).get_size = g.get_size := by
  unfold TileNet.set_box
  rw [TileNet.set_size]
  rw [TileNet.foldl_size _ (fun g i => TileNet.set_size g v (stop.1, start.2 + i))]
  rw [TileNet.foldl_size _ (fun g j => TileNet.set_size g v (start.1 + j, stop.2))]
  rw [TileNet.foldl_size _ (fun g i =>
    TileNet.foldl_size _ (fun g j => TileNet.set_size g v (start.1 + j, start.2 + i)) _ g)]

/-- One proxy write both preserves the grid extent and updates the span
exactly as the declarative `spanUpdate` does. -/
theorem TileNetProxy.applyOp_span (sz : ℕ × ℕ) (p : TileNetProxy T)
    (op : WriteOp T) (hp : p.tilenet.get_size = sz) :
    (p.applyOp op).get_span = spanUpdate sz p.get_span op
    ∧ (p.applyOp op).tilenet.get_size = sz := by
  cases op with
  | set v q =>
    have ht : (p.tilenet.set v q).get_size = sz := by rw [TileNet.set_size, hp]
    constructor
    · show ((p.set v q).min_x, (p.set v q).min_y, (p.set v q).max_x,
          (p.set v q).max_y) = _
      unfold TileNetProxy.set
      simp only [ht]
      rfl
    · show (p.set v q).tilenet.get_size = sz
      unfold TileNetProxy.set
      exact ht
  | set_row v r =>
    have ht : (p.tilenet.set_row v r).get_size = sz := by
      rw [TileNet.set_row_size, hp]
    constructor
    · show ((p.set_row v r).min_x, (p.set_row v r).min_y, (p.set_row v r).max_x,
          (p.set_row v r).max_y) = _
      unfold TileNetProxy.set_row
      simp only [ht]
      rfl
    · show (p.set_row v r).tilenet.get_size = sz
      unfold TileNetProxy.set_row
      exact ht
  | set_col v cidx =>
    have ht : (p.tilenet.set_col v cidx).get_size = sz := by
      rw [TileNet.set_col_size, hp]
    constructor
    · show ((p.set_col v cidx).min_x, (p.set_col v cidx).min_y,
          (p.set_col v cidx).max_x, (p.set_col v cidx).max_y) = _
      unfold TileNetProxy.set_col
      simp only [ht]
      rfl
    · show (p.set_col v cidx).tilenet.get_size = sz
      unfold TileNetProxy.set_col
      exact ht
  | set_box v a b =>
    have ht : (p.tilenet.set_box v a b).get_size = sz := by
      rw [TileNet.set_box_size, hp]
    constructor
    · show ((p.set_box v a b).min_x, (p.set_box v a b).min_y,
          (p.set_box v a b).max_x, (p.set_box v a b).max_y) = _
      unfold TileNetProxy.set_box
      simp only [ht]
      rfl
    · show (p.set_box v a b).tilenet.get_size = sz
      unfold TileNetProxy.set_box
      exact ht

/-- Running proxy writes: the accumulated span is the fold of the
per-operation span updates over the (constant) grid extent. -/
theorem TileNetProxy.runOps_span (sz : ℕ × ℕ) :
    ∀ (ops : List (WriteOp T)) (p : TileNetProxy T),
      p.tilenet.get_size = sz →
      (p.runOps ops).get_span = ops.foldl (spanUpdate sz) p.get_span
        ∧ (p.runOps ops).tilenet.get_size = sz := by
  intro ops
  induction ops with
  | nil => intro p hp; exact ⟨rfl, hp⟩
  | cons op ops ih =>
    intro p hp
    obtain ⟨hspan, hsize⟩ := TileNetProxy.applyOp_span sz p op hp
    obtain ⟨ih1, ih2⟩ := ih (p.applyOp op) hsize
    refine ⟨?_, ih2⟩
    show ((p.applyOp op).runOps ops).get_span = _
    rw [ih1, List.foldl_cons, hspan]

/-- C3: `resize((4, 5))` on a 2-column, 3-row grid must, per the spec,
produce a 4-column, 5-row grid; the code instead takes `m.1` (the
second component) as the new column count — a leftover from an older
revision whose constructor took `(rows, cols)` — so the result is a
5-column, 4-row grid.  Cells are still preserved by their position
within the actual (swapped) new extent: cell `(1, 1)` keeps its value
`4`. -/
theorem C3_resize_swapped :
    ((TileNet.mk [1, 2, 3, 4, 5, 6] 2).resize 0 (4, 5)).get_size = (5, 4)
    ∧ ((5, 4) : ℕ × ℕ) ≠ (4, 5)
    ∧ ((TileNet.mk [1, 2, 3, 4, 5, 6] 2).get (1, 1) = some 4
        ∧ ((TileNet.mk [1, 2, 3, 4, 5, 6] 2).resize 0 (4, 5)).get (1, 1)
          = some 4) := by
  decide

/-- C5: writing any in-range cell and reading it back yields the
written value, and reading one past either dimension yields `none`.
The hypothesis `hlen` is the grid representation invariant
`map.len == cols * rows` maintained by every constructor. -/
theorem C5_get_set (T : Type) (g : TileNet T) (v : T) (x y x2 y2 : ℕ)
    (hx : x < g.cols) (hy : y < g.row_count)
    (hlen : g.map.length = g.cols * g.row_count) :
    (g.set v (x, y)).get (x, y) = some v
    ∧ g.get (g.cols, y2) = none
    ∧ g.get (x2, g.row_count) = none := by
  refine ⟨?_, ?_, ?_⟩
  · have hidx : x + y * g.cols < g.map.length := by
      rw [hlen]
      calc x + y * g.cols < g.cols + y * g.cols := by omega
        _ = (y + 1) * g.cols := by ring
        _ ≤ g.row_count * g.cols := Nat.mul_le_mul_right _ (by omega)
        _ = g.cols * g.row_count := Nat.mul_comm _ _
    unfold TileNet.set
    rw [if_neg (by omega)]
    show (if g.cols ≤ x then none
        else (g.map.set (x + y * g.cols) v)[x + y * g.cols]?) = some v
    rw [if_neg (by omega)]
    exact List.getElem?_set_self hidx
  · unfold TileNet.get
    rw [if_pos (le_refl _)]
  · unfold TileNet.get
    by_cases hc : g.cols ≤ x2
    · rw [if_pos hc]
    · rw [if_neg hc]
      refine List.getElem?_eq_none_iff.mpr ?_
      show g.map.length ≤ x2 + g.row_count * g.cols
      rw [hlen, Nat.mul_comm]
      exact Nat.le_add_left _ _

/-- Witness for `C5_get_set` on a 2x2 grid. -/
theorem C5_get_set_witness :
    ((TileNet.new (0 : ℕ) 2 2).set 5 (1, 1)).get (1, 1) = some 5
    ∧ (TileNet.new (0 : ℕ) 2 2).get ((TileNet.new (0 : ℕ) 2 2).cols, 0) = none
    ∧ (TileNet.new (0 : ℕ) 2 2).get (0, (TileNet.new (0 : ℕ) 2 2).row_count)
      = none :=
  C5_get_set ℕ (TileNet.new 0 2 2) 5 1 1 0 0 (by decide) (by decide) (by decide)

/-- C7 counterexample: on a 2x2 grid, a single `set_row` through the
proxy writes exactly the cells `(0,0)` and `(1,0)` (the other two keep
the default), whose minimal bounding rectangle clipped to the extent
is `(0, 0, 1, 0)`; but `get_span` reports `(0, 0, 2, 0)` — its x
maximum is the full column count `2`, which is not even a valid cell
x-position of the extent. -/
theorem C7_counterexample :
    ((TileNet.new (0 : ℕ) 2 2).prepare.set_row 9 0).get_span = (0, 0, 2, 0)
    ∧ ((TileNet.new (0 : ℕ) 2 2).set_row 9 0).get (0, 0) = some 9
    ∧ ((TileNet.new (0 : ℕ) 2 2).set_row 9 0).get (1, 0) = some 9
    ∧ ((TileNet.new (0 : ℕ) 2 2).set_row 9 0).get (0, 1) = some 0
    ∧ ((TileNet.new (0 : ℕ) 2 2).set_row 9 0).get (1, 1) = some 0
    ∧ ¬ (2 < (TileNet.new (0 : ℕ) 2 2).get_size.1) := by
  decide

/-- C7 (amended): after any sequence of proxy writes, `get_span`
equals the fold of the per-operation span updates (`spanUpdate`) over
the grid's (constant) extent, starting from the inverted span
`(cols, rows, 0, 0)`: each operation contributes its *requested*
coordinates — `set` clips its maxima to the extent, `set_row`/`set_col`
assign `0` and the full dimension size (an exclusive bound) on their
axis, and `set_box` clips only its y maximum — so the span is not in
general the clipped minimal bounding rectangle of the written cells. -/
theorem C7_span_is_fold (T : Type) (g : TileNet T) (ops : List (WriteOp T)) :
    (g.prepare.runOps ops).get_span
      = ops.foldl (spanUpdate g.get_size) (g.get_size.1, g.get_size.2, 0, 0) :=
  (TileNetProxy.runOps_span g.get_size ops g.prepare rfl).1

/-- C10: a fresh proxy's span is `(cols, rows, 0, 0)` — minima at the
full size, maxima at zero — an inverted rectangle whenever the grid is
nonempty. -/
theorem C10_prepare_span (T : Type) (g : TileNet T) :
    g.prepare.get_span = (g.get_size.1, g.get_size.2, 0, 0)
    ∧ (0 < g.get_size.1 → 0 < g.get_size.2 →
        g.prepare.max_x < g.prepare.min_x
        ∧ g.prepare.max_y < g.prepare.min_y) :=
  ⟨rfl, fun h1 h2 => ⟨h1, h2⟩⟩

/-- Witness for `C10_prepare_span` on a 2x3 grid. -/
theorem C10_prepare_span_witness :
    (TileNet.new (0 : ℕ) 2 3).prepare.get_span = (2, 3, 0, 0)
    ∧ (TileNet.new (0 : ℕ) 2 3).prepare.max_x
      < (TileNet.new (0 : ℕ) 2 3).prepare.min_x := by
  have h := C10_prepare_span ℕ (TileNet.new 0 2 3)
  exact ⟨by rw [h.1]; decide, (h.2 (by decide) (by decide)).1⟩

/-- One unfold of the query drain. -/
theorem TileSet.drain_succ (fuel : ℕ) (s : TileSet T) :
    TileSet.drain (fuel + 1) s
      = match TileSet.next s with
        | none => []
        | some (t, s') => t :: TileSet.drain fuel s' := rfl

/-- Draining the tile query over a pending coordinate list yields the
payloads of the longest prefix of non-negative, in-range coordinates. -/
theorem TileSet.drain_prefix (T : Type) (g : TileNet T) :
    ∀ coords : List (ℤ × ℤ),
      (TileSet.drain (coords.length + 1)
          ({ tilenet := g, points := coords } : TileSet T)).map some
        = (coords.takeWhile (fun c => decide (0 ≤ c.1) && decide (0 ≤ c.2)
              && (g.get (c.1.toNat, c.2.toNat)).isSome)).map
            (fun c => g.get (c.1.toNat, c.2.toNat)) := by
  intro coords
  induction coords with
  | nil => rfl
  | cons c rest ih =>
    show (TileSet.drain (rest.length + 1 + 1)
        ({ tilenet := g, points := c :: rest } : TileSet T)).map some = _
    rw [TileSet.drain_succ]
    by_cases hc : 0 ≤ c.1 ∧ 0 ≤ c.2
    · cases hg : g.get (c.1.toNat, c.2.toNat) with
      | some t =>
        have hn : TileSet.next
            ({ tilenet := g, points := c :: rest } : TileSet T)
            = some (t, { tilenet := g, points := rest }) := by
          show (if 0 ≤ c.1 ∧ 0 ≤ c.2 then
              match g.get (c.1.toNat, c.2.toNat) with
              | some t =>
                some (t, ({ tilenet := g, points := rest } : TileSet T))
              | none => (none : Option (T × TileSet T))
            else none) = _
          rw [if_pos hc, hg]
        rw [hn]
        show (t :: TileSet.drain (rest.length + 1)
            ({ tilenet := g, points := rest } : TileSet T)).map some = _
        rw [List.takeWhile_cons_of_pos (by simp [hc.1, hc.2, hg])]
        rw [List.map_cons, List.map_cons, ih, hg]
      | none =>
        have hn : TileSet.next
            ({ tilenet := g, points := c :: rest } : TileSet T) = none := by
          show (if 0 ≤ c.1 ∧ 0 ≤ c.2 then
              match g.get (c.1.toNat, c.2.toNat) with
              | some t =>
                some (t, ({ tilenet := g, points := rest } : TileSet T))
              | none => (none : Option (T × TileSet T))
            else none) = _
          rw [if_pos hc, hg]
        rw [hn]
        rw [List.takeWhile_cons_of_neg (by simp [hg])]
        rfl
    · have hn : TileSet.next
          ({ tilenet := g, points := c :: rest } : TileSet T) = none := by
        show (if 0 ≤ c.1 ∧ 0 ≤ c.2 then
            match g.get (c.1.toNat, c.2.toNat) with
            | some t =>
              some (t, ({ tilenet := g, points := rest } : TileSet T))
            | none => (none : Option (T × TileSet T))
          else none) = _
        rw [if_neg hc]
      rw [hn]
      have hor := Decidable.not_and_iff_or_not.mp hc
      rw [List.takeWhile_cons_of_neg (by rcases hor with h | h <;> simp [h])]
      rfl

/-- C6 counterexample: with the pending coordinates
`[(-1, 0), (0, 0)]` on a 2x2 grid, the query iterator produces zero
results — the negative first coordinate ends the whole iteration —
whereas the claim demands exactly one result per input coordinate
(two results, the first of them absent). -/
theorem C6_counterexample :
    ((TileNet.new (7 : ℕ) 2 2).collide_set [(-1, 0), (0, 0)]).toList.length = 0
    ∧ ¬ (((TileNet.new (7 : ℕ) 2 2).collide_set
          [(-1, 0), (0, 0)]).toList.length
        = [((-1 : ℤ), (0 : ℤ)), (0, 0)].length) := by
  decide

/-- C6 (amended): the Tile Query iterator yields the cell payload for
each input coordinate, in order, only while the coordinates are
non-negative and in range; the first coordinate with a negative
component (rejected without consulting the grid) or out of the grid's
range terminates the whole iteration — it yields no "absent" result
for that coordinate, and nothing for any later coordinate. -/
theorem C6_query_prefix (T : Type) (g : TileNet T) (coords : List (ℤ × ℤ)) :
    (g.collide_set coords).toList.map some
      = (coords.takeWhile (fun c => decide (0 ≤ c.1) && decide (0 ≤ c.2)
            && (g.get (c.1.toNat, c.2.toNat)).isSome)).map
          (fun c => g.get (c.1.toNat, c.2.toNat)) :=
  TileSet.drain_prefix T g coords

/-- C8: `TileView::new` clamps the right edge by the *row* count and
the bottom edge by the *column* count (swapped), so `view_all` on a
3-column, 2-row grid iterates only the 2x2 corner — 4 of the 6 tiles —
contradicting its own documentation ("iterates over all tiles"). -/
theorem C8_view_clamp_swapped :
    (TileNet.mk [1, 2, 3, 4, 5, 6] 3).view_all.toList
        = [(1, 0, 0), (2, 1, 0), (4, 0, 1), (5, 1, 1)]
    ∧ (TileNet.mk [1, 2, 3, 4, 5, 6] 3).view_all.toList.length = 4
    ∧ (TileNet.mk [1, 2, 3, 4, 5, 6] 3).get_size = (3, 2)
    ∧ ¬ ((4 : ℕ) = 3 * 2) := by
  decide

/-- The retry loop calls `resolve` at most `n` times, every call but
the last returns "try again", and the trace is shorter than `n` only
when the final call resolved. -/
theorem solveLoop_trace (S : Type) (c : Collable S) :
    ∀ (n : ℕ) (s : S),
      (solveLoop c n s).2.length ≤ n
      ∧ ((∃ k, k < n ∧ (solveLoop c n s).2 = List.replicate k false ++ [true])
          ∨ (solveLoop c n s).2 = List.replicate n false) := by
  intro n
  induction n with
  | zero => intro s; exact ⟨Nat.le_refl 0, Or.inr rfl⟩
  | succ n ih =>
    intro s
    unfold solveLoop
    by_cases h : (c.resolve s).1
    · rw [if_pos h]
      exact ⟨by simp, Or.inl ⟨0, Nat.succ_pos n, rfl⟩⟩
    · rw [if_neg h]
      obtain ⟨hlen, hshape⟩ := ih (c.resolve s).2
      refine ⟨by simpa using Nat.succ_le_succ hlen, ?_⟩
      rcases hshape with ⟨k, hk, he⟩ | he
      · exact Or.inl ⟨k + 1, by omega, by simp [he, List.replicate_succ]⟩
      · exact Or.inr (by simp [he, List.replicate_succ])

/-- C9 (spec-modelled): one invocation of the resolution driver calls
`resolve` at most `solve_retries` (30) times; the outcome trace is
`k` rejections followed by one success for some `k < 30` (early exit
on the first resolved result) or thirty rejections; and `postsolve` is
applied exactly once, to the final loop state with the
collided-at-least-once and resolved flags. -/
theorem C9_driver_bounded (S : Type) (c : Collable S) (s : S) :
    (solve c s).2.length ≤ solve_retries
    ∧ ((∃ k, k < solve_retries
          ∧ (solve c s).2 = List.replicate k false ++ [true])
        ∨ (solve c s).2 = List.replicate solve_retries false)
    ∧ (solve c s).1
      = c.postsolve (solveLoop c solve_retries (c.presolve s)).1
          ((solve c s).2.contains false) ((solve c s).2.contains true) := by
  obtain ⟨h1, h2⟩ := solveLoop_trace S c solve_retries (c.presolve s)
  exact ⟨h1, h2, rfl⟩

end TN
